import Mathlib

/-!
Verification development for the instaloader-api repository.

The Python application is shallowly embedded: pure fragments of the code
become Lean functions, request handling becomes functions from injected
service outcomes to explicit event traces and responses, and the wrapped
library / network is represented by outcome parameters.  Python string
operations (`in`, `startswith`, `str.lower`, `pathlib.Path.suffix`) are
modelled by executable helpers below.
-/

/-! ## String helpers (Python semantics) -/

/-- Boolean prefix test on character lists (Python `str.startswith`). -/
def charsPrefixOf : List Char → List Char → Bool
  | [], _ => true
  | _ :: _, [] => false
  | a :: as, b :: bs => a == b && charsPrefixOf as bs

/-- Boolean substring test on character lists (Python `needle in hay`). -/
def charsInfixOf (n : List Char) : List Char → Bool
  | [] => charsPrefixOf n []
  | b :: bs => charsPrefixOf n (b :: bs) || charsInfixOf n bs

/-- Python `s.startswith(p)`. -/
def strStartsWith (p s : String) : Bool := charsPrefixOf p.data s.data

/-- Python `needle in hay`. -/
def strContains (hay needle : String) : Bool := charsInfixOf needle.data hay.data

/-- Python `s.endswith(suf)`. -/
def strEndsWith (suf s : String) : Bool := charsPrefixOf suf.data.reverse s.data.reverse

/-- Python `s.lower()` (ASCII). -/
def strLower (s : String) : String := ⟨s.data.map Char.toLower⟩

/-! ## Typed error taxonomy (`app/exceptions.py`) -/

/-- Closed set of typed failures from `app/exceptions.py`. -/
inductive AppError
  | userNotFound (username : String)
  | privateProfile (username : String)
  | profileSuspended (username : String)
  | rateLimited
  | loginRequired (operation : String)
  | downloadFailed (message : String)
  | noContent (contentType : String)
  | timedOut
  deriving DecidableEq, Repr

/-- Human-readable message carried by each typed failure (`exceptions.py`). -/
def AppError.message : AppError → String
  | .userNotFound u => "Instagram user not found: '" ++ u ++ "'"
  | .privateProfile u => "'" ++ u ++ "' profile is private. You need to log in to access this content."
  | .profileSuspended u => "'" ++ u ++ "' account has been suspended or removed."
  | .rateLimited => "Instagram API rate limit exceeded. Please wait a while and try again."
  | .loginRequired op => "You need to log in to Instagram for '" ++ op ++ "'."
  | .downloadFailed m => m
  | .noContent ct => "No " ++ ct ++ " found to download."
  | .timedOut => "Operation timed out. Please try again."

/-- Numeric status carried by each typed failure (`exceptions.py`). -/
def AppError.status_code : AppError → Nat
  | .userNotFound _ => 404
  | .privateProfile _ => 403
  | .profileSuspended _ => 410
  | .rateLimited => 429
  | .loginRequired _ => 401
  | .downloadFailed _ => 500
  | .noContent _ => 404
  | .timedOut => 504

/-! ## HTTP response bodies and the app-level exception handlers (`app/main.py`) -/

/-- Shape of a JSON response body as produced by the application. -/
inductive RespBody
  | envelope (success : Bool) (error : String) (error_code : String) (timestamp : String)
  | detail (message : String)
  | jsonData
  | fileResponse (filename : String)
  deriving DecidableEq, Repr

/-- An HTTP response: status plus body shape. -/
structure HttpResp where
  status : Nat
  body : RespBody
  deriving DecidableEq, Repr

/-- Status-to-code mapping of `instagram_exception_handler` (`main.py` lines 114-128). -/
def error_codes (status : Nat) : String :=
  if status = 404 then "USER_NOT_FOUND"
  else if status = 403 then "PRIVATE_PROFILE"
  else if status = 429 then "RATE_LIMITED"
  else if status = 410 then "PROFILE_SUSPENDED"
  else if status = 500 then "DOWNLOAD_ERROR"
  else if status = 504 then "TIMEOUT"
  else "UNKNOWN_ERROR"

/-- App-level handler for `InstagramDownloaderError` (`main.py` lines 111-131).
It fires only for typed errors that escape a route uncaught. -/
def instagram_exception_handler (e : AppError) (timestamp : String) : HttpResp :=
  ⟨e.status_code, .envelope false e.message (error_codes e.status_code) timestamp⟩

/-- App-level handler for unexpected exceptions (`main.py` lines 150-162). -/
def general_exception_handler (timestamp : String) : HttpResp :=
  ⟨500, .envelope false "An unexpected error occurred." "INTERNAL_ERROR" timestamp⟩

/-- FastAPI default rendering of a `fastapi.HTTPException` raised by a route:
status code plus a `detail` body (framework behaviour, not repository code). -/
def http_exception_response (status : Nat) (detail : String) : HttpResp :=
  ⟨status, .detail detail⟩

/-- Outcome of a service call as observed by a route handler. -/
inductive RouteFailure
  | typed (e : AppError)
  | unexpected (message : String)
  deriving DecidableEq, Repr

/-- The `/profile/{username}` route (`routes/download.py` lines 64-73): the
`try` body returns JSON, `except InstagramDownloaderError` re-raises an
`HTTPException` with the typed status and message, `except Exception`
re-raises an `HTTPException` with status 500 and `str(e)` as detail. -/
def get_profile_route (svc : Except RouteFailure Unit) : HttpResp :=
  match svc with
  | .ok _ => ⟨200, .jsonData⟩
  | .error (.typed e) => http_exception_response e.status_code e.message
  | .error (.unexpected m) => http_exception_response 500 m

/-! ## Thumbnail proxy guard (`routes/download.py` lines 82-95) -/

/-- Allow-list of upstream hosts from `proxy_thumbnail`. -/
def allowed_hosts : List String :=
  ["cdninstagram.com", "fbcdn.net", "akamaihd.net", "instagram.com"]

/-- Decision taken by the thumbnail proxy guard. -/
inductive ThumbDecision
  | reject400 (detail : String)
  | relay
  deriving DecidableEq, Repr

/-- Guard of `proxy_thumbnail`: rejects unless `parsed.scheme.startswith("http")`
and some allow-listed host occurs as a substring of `parsed.hostname or ""`;
otherwise the URL is fetched and relayed. -/
def proxy_thumbnail_guard (scheme : String) (hostname : Option String) : ThumbDecision :=
  if !(strStartsWith "http" scheme) then .reject400 "Invalid URL scheme"
  else if !(allowed_hosts.any fun h => strContains (hostname.getD "") h) then
    .reject400 "URL host not allowed"
  else .relay

/-- Host acceptance as the claim states it: the hostname is an allow-listed
host or a subdomain of one (ends with a dot followed by the host). -/
def claimAllowedHost (hn : String) : Bool :=
  allowed_hosts.any fun h => hn == h || strEndsWith ("." ++ h) hn

/-! ## Shortcode extraction (`services/insta_service.py` lines 455-466)

The pattern
`(?:instagram\.com/(?:p|reel|tv)/|/p/|/reel/|/tv/|/stories/[^/]+/)([A-Za-z0-9_-]{5,})`
is searched case-insensitively; on failure a full match of `[A-Za-z0-9_-]{5,}`
returns the identifier unchanged, otherwise `DownloadError` is raised. -/

/-- Character class `[A-Za-z0-9_-]` of the shortcode pattern. -/
def isShortcodeChar (c : Char) : Bool :=
  c.isAlpha || c.isDigit || c == '_' || c == '-'

/-- Case-insensitive match of one lowercase ASCII pattern character `l`
against an input character `c` (re.IGNORECASE over ASCII literals). -/
def charCI (l c : Char) : Bool :=
  c == l || (97 ≤ l.toNat && l.toNat ≤ 122 && c.toNat + 32 == l.toNat)

/-- Match a literal pattern piece at the head of the input, returning the
remaining input on success. -/
def matchLit : List Char → List Char → Option (List Char)
  | [], rest => some rest
  | _ :: _, [] => none
  | l :: ls, c :: cs => if charCI l c then matchLit ls cs else none

/-- Match the `/stories/[^/]+/` alternative at the head of the input:
a nonempty run of non-slash characters between two slashes. -/
def matchStories (cs : List Char) : Option (List Char) :=
  match matchLit "/stories/".data cs with
  | none => none
  | some rest =>
    let seg := rest.takeWhile (fun c => c != '/')
    if seg.isEmpty then none
    else
      match rest.drop seg.length with
      | '/' :: rest2 => some rest2
      | _ => none

/-- Try the non-capturing alternatives of the pattern, in order, at the head
of the input. -/
def matchPrefixAlt (cs : List Char) : Option (List Char) :=
  (matchLit "instagram.com/p/".data cs).orElse fun _ =>
  (matchLit "instagram.com/reel/".data cs).orElse fun _ =>
  (matchLit "instagram.com/tv/".data cs).orElse fun _ =>
  (matchLit "/p/".data cs).orElse fun _ =>
  (matchLit "/reel/".data cs).orElse fun _ =>
  (matchLit "/tv/".data cs).orElse fun _ =>
  matchStories cs

/-- Match the whole pattern at the head of the input: one alternative
followed by a greedy capture of at least 5 shortcode characters. -/
def matchHere (cs : List Char) : Option (List Char) :=
  match matchPrefixAlt cs with
  | none => none
  | some rest =>
    let run := rest.takeWhile isShortcodeChar
    if 5 ≤ run.length then some run else none

/-- The `re.search` of the shortcode pattern: leftmost match wins. -/
def regexSearch : List Char → Option (List Char)
  | [] => none
  | c :: cs => (matchHere (c :: cs)).orElse fun _ => regexSearch cs

/-- `InstaService._extract_shortcode`: pattern search, then bare-shortcode
full match, otherwise `DownloadError`. -/
def extract_shortcode (identifier : String) : Except AppError String :=
  match regexSearch identifier.data with
  | some run => .ok ⟨run⟩
  | none =>
    if identifier.data.all isShortcodeChar = true ∧ 5 ≤ identifier.data.length then
      .ok identifier
    else .error (.downloadFailed "Provide a valid Instagram link or shortcode.")

/-! Helper lemmas: a successful literal match containing a slash consumes a
slash from the input, so bare shortcodes can never match the link pattern. -/

theorem orElse_some_cases {α : Type} {a : Option α} {f : Unit → Option α} {r : α}
    (h : a.orElse f = some r) : a = some r ∨ f () = some r := by
  cases a with
  | none => right; simpa [Option.orElse] using h
  | some x => left; simpa [Option.orElse] using h

theorem charCI_slash {c : Char} (h : charCI '/' c = true) : c = '/' := by
  simp only [charCI, Bool.or_eq_true, beq_iff_eq] at h
  rcases h with h | h
  · exact h
  · exfalso
    simp only [Bool.and_eq_true, decide_eq_true_eq] at h
    have h47 : ('/' : Char).toNat = 47 := rfl
    omega

theorem matchLit_slash_mem {lit cs rest : List Char}
    (h : matchLit lit cs = some rest) (hs : '/' ∈ lit) : '/' ∈ cs := by
  induction lit generalizing cs with
  | nil => cases hs
  | cons l ls ih =>
    cases cs with
    | nil => simp [matchLit] at h
    | cons c cs2 =>
      simp only [matchLit] at h
      by_cases hc : charCI l c = true
      · rw [if_pos hc] at h
        rcases List.mem_cons.mp hs with hl | hl
        · subst hl
          have := charCI_slash hc
          subst this
          exact List.mem_cons_self _ _
        · exact List.mem_cons_of_mem _ (ih h hl)
      · rw [if_neg hc] at h
        cases h

theorem matchStories_slash_mem {cs rest : List Char}
    (h : matchStories cs = some rest) : '/' ∈ cs := by
  unfold matchStories at h
  cases hm : matchLit "/stories/".data cs with
  | none => rw [hm] at h; cases h
  | some r =>
    exact matchLit_slash_mem hm (by decide)

theorem matchPrefixAlt_slash_mem {cs rest : List Char}
    (h : matchPrefixAlt cs = some rest) : '/' ∈ cs := by
  unfold matchPrefixAlt at h
  rcases orElse_some_cases h with h | h
  · exact matchLit_slash_mem h (by decide)
  rcases orElse_some_cases h with h | h
  · exact matchLit_slash_mem h (by decide)
  rcases orElse_some_cases h with h | h
  · exact matchLit_slash_mem h (by decide)
  rcases orElse_some_cases h with h | h
  · exact matchLit_slash_mem h (by decide)
  rcases orElse_some_cases h with h | h
  · exact matchLit_slash_mem h (by decide)
  rcases orElse_some_cases h with h | h
  · exact matchLit_slash_mem h (by decide)
  exact matchStories_slash_mem h

theorem matchHere_none_of_allShortcode {cs : List Char}
    (hall : cs.all isShortcodeChar = true) : matchHere cs = none := by
  unfold matchHere
  cases hp : matchPrefixAlt cs with
  | none => rfl
  | some rest =>
    exfalso
    have hmem : '/' ∈ cs := matchPrefixAlt_slash_mem hp
    have := List.all_eq_true.mp hall _ hmem
    simp [isShortcodeChar] at this

theorem regexSearch_none_of_allShortcode {cs : List Char}
    (hall : cs.all isShortcodeChar = true) : regexSearch cs = none := by
  induction cs with
  | nil => rfl
  | cons c cs2 ih =>
    have htail : cs2.all isShortcodeChar = true := by
      simp only [List.all_cons, Bool.and_eq_true] at hall
      exact hall.2
    simp only [regexSearch, matchHere_none_of_allShortcode hall, Option.orElse]
    exact ih htail

/-! ## Theorems for C1, C2, C9 -/

/-- C1: a request failing with the typed failure `UserNotFoundError('ghost')`
does not receive the documented error envelope.  The route catches the typed
failure and re-raises an `HTTPException`, so the client receives the body
`{"detail": message}` and the envelope produced by the registered
`instagram_exception_handler` is never reached. -/
theorem C1_typed_error_bypasses_envelope :
    (get_profile_route (.error (.typed (.userNotFound "ghost")))).status = 404 ∧
    (get_profile_route (.error (.typed (.userNotFound "ghost")))).body =
      .detail "Instagram user not found: 'ghost'" ∧
    (∀ s e c t, (get_profile_route (.error (.typed (.userNotFound "ghost")))).body ≠
      .envelope s e c t) ∧
    (instagram_exception_handler (.userNotFound "ghost") "T").body =
      .envelope false "Instagram user not found: 'ghost'" "USER_NOT_FOUND" "T" := by
  refine ⟨rfl, rfl, ?_, rfl⟩
  intro s e c t h
  simp [get_profile_route, http_exception_response] at h

/-- C2: an unexpected exception raised inside a route handler produces a 500
response whose body contains the exception's own text (`detail=str(e)`), not
the fixed message of `general_exception_handler`, which would only fire for
exceptions escaping the route uncaught. -/
theorem C2_unexpected_error_leaks_detail :
    (get_profile_route (.error (.unexpected "division by zero in secret module"))).status = 500 ∧
    (get_profile_route (.error (.unexpected "division by zero in secret module"))).body =
      .detail "division by zero in secret module" ∧
    (get_profile_route (.error (.unexpected "division by zero in secret module"))).body ≠
      .detail "An unexpected error occurred." ∧
    (general_exception_handler "T").body =
      .envelope false "An unexpected error occurred." "INTERNAL_ERROR" "T" := by
  refine ⟨rfl, rfl, ?_, rfl⟩
  intro h
  simp [get_profile_route, http_exception_response] at h

/-- C9: the thumbnail proxy relays a URL whose hostname
`cdninstagram.com.evil.example` is neither an allow-listed host nor a
subdomain of one, because the guard performs a substring test
(`host in hostname`) instead of an exact or subdomain match. -/
theorem C9_substring_host_check_relays_foreign_host :
    proxy_thumbnail_guard "http" (some "cdninstagram.com.evil.example") = .relay ∧
    claimAllowedHost "cdninstagram.com.evil.example" = false := by
  constructor
  · decide
  · decide

/-- C4: shortcode extraction maps the full link to its shortcode, returns any
bare identifier of at least 5 characters over `[A-Za-z0-9_-]` unchanged, and
raises `DownloadError` for every input that neither matches the link pattern
nor is such a bare shortcode. -/
theorem C4_extract_shortcode_spec :
    extract_shortcode "https://instagram.com/p/ABC123xy/" = .ok "ABC123xy" ∧
    (∀ s : String, s.data.all isShortcodeChar = true → 5 ≤ s.data.length →
      extract_shortcode s = .ok s) ∧
    (∀ s : String, regexSearch s.data = none →
      ¬(s.data.all isShortcodeChar = true ∧ 5 ≤ s.data.length) →
      extract_shortcode s =
        .error (.downloadFailed "Provide a valid Instagram link or shortcode.")) := by
  refine ⟨rfl, ?_, ?_⟩
  · intro s hall hlen
    unfold extract_shortcode
    rw [regexSearch_none_of_allShortcode hall]
    rw [if_pos ⟨hall, hlen⟩]
  · intro s hsearch hbare
    unfold extract_shortcode
    rw [hsearch, if_neg hbare]

/-- Witness for C4 at concrete inputs: the bare shortcode `ABC123xy` is
returned unchanged, and the too-short input `ab` is rejected. -/
theorem C4_extract_shortcode_spec_witness :
    extract_shortcode "ABC123xy" = .ok "ABC123xy" ∧
    extract_shortcode "ab" =
      .error (.downloadFailed "Provide a valid Instagram link or shortcode.") :=
  ⟨C4_extract_shortcode_spec.2.1 "ABC123xy" (by decide) (by decide),
   C4_extract_shortcode_spec.2.2 "ab" (by decide) (by decide)⟩

/-! ## Aggregate statistics of `InstaService.download_all`
(`services/insta_service.py` lines 512-559): sub-operation failures are
caught and appended to `errors`, never re-raised; the function totality in
the embedding reflects that both sub-downloads sit in `try/except Exception`
blocks. -/

/-- Outcome of the profile-picture sub-download as seen by `download_all`:
a saved path, `None` (both fetch paths failed), or a raised exception. -/
inductive PicOutcome
  | ok (path : String)
  | nonePath
  | raises (message : String)
  deriving DecidableEq, Repr

/-- Outcome of the posts sub-download as seen by `download_all`. -/
inductive PostsOutcome
  | ok (posts : List String)
  | raisesPrivate
  | raises (message : String)
  deriving DecidableEq, Repr

/-- Statistics dictionary built by `download_all`. -/
structure DlStats where
  posts : Nat
  profile_pic : Bool
  errors : List String
  deriving DecidableEq, Repr

/-- `InstaService.download_all`: initial stats, profile-picture block, posts
block, with each failure recorded as a textual error. -/
def download_all_stats (pic : PicOutcome) (postsRes : PostsOutcome) : DlStats :=
  let s0 : DlStats := ⟨0, false, []⟩
  let s1 :=
    match pic with
    | .ok _ => { s0 with profile_pic := true }
    | .nonePath => { s0 with profile_pic := false }
    | .raises m => { s0 with errors := s0.errors ++ ["Profile picture: " ++ m] }
  match postsRes with
  | .ok l => { s1 with posts := l.length }
  | .raisesPrivate => { s1 with errors := s1.errors ++ ["Posts: Profile is private"] }
  | .raises m => { s1 with errors := s1.errors ++ ["Posts: " ++ m] }

/-! ## Media collection and raw-versus-ZIP delivery
(`services/insta_service.py` lines 37, 468-474, 490-510 and
`routes/download.py` lines 284-330). -/

/-- An entry of the post folder, as seen by `Path.iterdir`. -/
structure DirEntry where
  name : String
  isFile : Bool
  deriving DecidableEq, Repr

/-- Python `pathlib.Path.suffix` of a file name: the part from the last dot,
empty when there is no dot, the dot is the first character, or the dot is
the last character. -/
def pathSuffix (name : String) : String :=
  let rev := name.data.reverse
  let pre := rev.takeWhile (fun c => c != '.')
  if pre.length = rev.length then ""
  else if pre.length = 0 then ""
  else if pre.length + 1 = rev.length then ""
  else ⟨'.' :: pre.reverse⟩

/-- `MEDIA_EXTENSIONS` from `insta_service.py`. -/
def MEDIA_EXTENSIONS : List String := [".jpg", ".jpeg", ".png", ".webp", ".mp4"]

/-- `InstaService._collect_media_files`: the files of the folder whose
lower-cased suffix is a media extension. -/
def collect_media_files (folder : List DirEntry) : List DirEntry :=
  folder.filter fun e => e.isFile && MEDIA_EXTENSIONS.contains (strLower (pathSuffix e.name))

/-- Delivery decided by the `/download/post` route for a resolved post. -/
inductive PostDelivery
  | err404
  | zipResp
  | rawFile (name : String)
  deriving DecidableEq, Repr

/-- Raw-versus-ZIP decision of `download_post_by_link` (`routes/download.py`
lines 284-317): 404 when no media file was collected, a ZIP of the post
folder when the post is a sidecar, reports more than one media item, or more
than one media file was collected, the single raw media file otherwise. -/
def post_delivery (isSidecar : Bool) (mediacount : Option Nat)
    (folder : List DirEntry) : PostDelivery :=
  match collect_media_files folder with
  | [] => .err404
  | f :: rest =>
    if isSidecar || decide (1 < mediacount.getD 0) || decide (0 < rest.length) then
      .zipResp
    else .rawFile f.name

/-- C8: when the profile-picture sub-download raises and the posts
sub-download succeeds with `l`, `download_all` returns normally with
`profile_pic = false`, a posts count of `l.length`, and exactly one
accumulated error string. -/
theorem C8_download_all_partial_failure (m : String) (l : List String) :
    download_all_stats (.raises m) (.ok l) =
      ⟨l.length, false, ["Profile picture: " ++ m]⟩ ∧
    (download_all_stats (.raises m) (.ok l)).errors.length = 1 := by
  exact ⟨rfl, rfl⟩

/-- Witness for C8 at a concrete failing picture fetch and two downloaded
posts. -/
theorem C8_download_all_partial_failure_witness :
    download_all_stats (.raises "connection reset") (.ok ["a", "b"]) =
      ⟨2, false, ["Profile picture: connection reset"]⟩ :=
  (C8_download_all_partial_failure "connection reset" ["a", "b"]).1

/-- C10: collected media files all carry a media extension, and a non-sidecar
post with a single collected media file is delivered as that raw file — in
particular `metadata.txt` is never the delivered file. -/
theorem C10_media_files_and_raw_delivery :
    (∀ (folder : List DirEntry) (e : DirEntry), e ∈ collect_media_files folder →
      e.isFile = true ∧ strLower (pathSuffix e.name) ∈ MEDIA_EXTENSIONS) ∧
    (∀ (folder : List DirEntry) (f : DirEntry) (mediacount : Option Nat),
      mediacount.getD 0 ≤ 1 → collect_media_files folder = [f] →
      post_delivery false mediacount folder = .rawFile f.name ∧
      f.name ≠ "metadata.txt") := by
  have hmem : ∀ (folder : List DirEntry) (e : DirEntry), e ∈ collect_media_files folder →
      e.isFile = true ∧ strLower (pathSuffix e.name) ∈ MEDIA_EXTENSIONS := by
    intro folder e he
    have h2 := List.of_mem_filter he
    simp only [Bool.and_eq_true] at h2
    refine ⟨h2.1, ?_⟩
    have := h2.2
    simpa using this
  refine ⟨hmem, ?_⟩
  intro folder f mediacount hmc hcol
  have hf : f ∈ collect_media_files folder := by rw [hcol]; exact List.mem_singleton_self f
  have hsuf := (hmem folder f hf).2
  constructor
  · unfold post_delivery
    rw [hcol]
    have h1 : decide (1 < mediacount.getD 0) = false := by
      simp only [decide_eq_false_iff_not, not_lt]
      exact hmc
    simp [h1]
  · intro hname
    rw [hname] at hsuf
    have : strLower (pathSuffix "metadata.txt") = ".txt" := rfl
    rw [this] at hsuf
    revert hsuf
    decide

/-- Witness for C10 at a concrete folder holding one JPEG and the metadata
text file. -/
theorem C10_media_files_and_raw_delivery_witness :
    post_delivery false (some 1)
      [⟨"2024-01-01_photo.jpg", true⟩, ⟨"metadata.txt", true⟩] =
      .rawFile "2024-01-01_photo.jpg" :=
  (C10_media_files_and_raw_delivery.2
    [⟨"2024-01-01_photo.jpg", true⟩, ⟨"metadata.txt", true⟩]
    ⟨"2024-01-01_photo.jpg", true⟩ (some 1) (by decide) (by decide)).1

/-! ## Download routes as event traces (`routes/download.py`)

Each route is modelled from the point where its `try` block runs: the
outcomes of the service call and of `create_zip_archive` are injected, and
the route emits the filesystem-affecting events it performs, in order,
together with the response.  `create_temp_download_dir` precedes the service
call inside the `try` block, so every modelled path starts with allocation. -/

/-- Filesystem-affecting steps a download route can perform. -/
inductive DlEvent
  | allocTemp
  | cleanupDir
  | zipCreated
  | armCleanup
  deriving DecidableEq, Repr

/-- Result of a download route. -/
inductive RouteResult
  | fileResp (filename : String)
  | jsonResp
  | httpError (status : Nat) (detail : String)
  deriving DecidableEq, Repr

/-- Whether a route result is an error response. -/
def RouteResult.isError : RouteResult → Bool
  | .httpError _ _ => true
  | _ => false

/-- The `/download/all/{username}` route (`download.py` lines 142-189). -/
def download_all_route (username : String) (svc : Except RouteFailure DlStats)
    (zip : Except String Unit) : List DlEvent × RouteResult :=
  match svc with
  | .error (.typed e) => ([.allocTemp, .cleanupDir], .httpError e.status_code e.message)
  | .error (.unexpected m) => ([.allocTemp, .cleanupDir], .httpError 500 m)
  | .ok _ =>
    match zip with
    | .error m => ([.allocTemp, .cleanupDir], .httpError 500 m)
    | .ok _ => ([.allocTemp, .zipCreated, .armCleanup], .fileResp (username ++ ".zip"))

/-- The `/download/posts/{username}` route (`download.py` lines 203-255). -/
def download_posts_route (username : String) (svc : Except RouteFailure (List String))
    (zip : Except String Unit) : List DlEvent × RouteResult :=
  match svc with
  | .error (.typed e) => ([.allocTemp, .cleanupDir], .httpError e.status_code e.message)
  | .error (.unexpected m) => ([.allocTemp, .cleanupDir], .httpError 500 m)
  | .ok posts =>
    if posts.isEmpty then
      ([.allocTemp, .cleanupDir], .httpError 404 "No posts found to download.")
    else
      match zip with
      | .error m => ([.allocTemp, .cleanupDir], .httpError 500 m)
      | .ok _ =>
        ([.allocTemp, .zipCreated, .armCleanup], .fileResp (username ++ "_posts.zip"))

/-- Service result of `download_post_by_url` as consumed by the route. -/
structure PostR where
  shortcode : String
  isSidecar : Bool
  mediacount : Option Nat
  mediaFiles : List String
  deriving DecidableEq, Repr

/-- The `/download/post` route (`download.py` lines 270-342). -/
def download_post_route (svc : Except RouteFailure PostR)
    (zip : Except String Unit) : List DlEvent × RouteResult :=
  match svc with
  | .error (.typed e) => ([.allocTemp, .cleanupDir], .httpError e.status_code e.message)
  | .error (.unexpected m) => ([.allocTemp, .cleanupDir], .httpError 500 m)
  | .ok r =>
    if r.mediaFiles.isEmpty then
      ([.allocTemp, .cleanupDir], .httpError 404 "No media found for this post.")
    else if r.isSidecar || decide (1 < r.mediacount.getD 0) ||
        decide (1 < r.mediaFiles.length) then
      match zip with
      | .error m => ([.allocTemp, .cleanupDir], .httpError 500 m)
      | .ok _ => ([.allocTemp, .zipCreated, .armCleanup], .fileResp (r.shortcode ++ ".zip"))
    else ([.allocTemp, .armCleanup], .fileResp r.shortcode)

/-- The `/download/profile-pic/{username}` route (`download.py` lines
355-419).  In the `url_only` branch no temporary directory exists yet, so
its failure paths clean nothing. -/
def download_profile_pic_route (urlOnly : Bool) (info : Except RouteFailure Unit)
    (pic : Except RouteFailure (Option String)) : List DlEvent × RouteResult :=
  if urlOnly then
    match info with
    | .ok _ => ([], .jsonResp)
    | .error (.typed e) => ([], .httpError e.status_code e.message)
    | .error (.unexpected m) => ([], .httpError 500 m)
  else
    match pic with
    | .error (.typed e) => ([.allocTemp, .cleanupDir], .httpError e.status_code e.message)
    | .error (.unexpected m) => ([.allocTemp, .cleanupDir], .httpError 500 m)
    | .ok none => ([.allocTemp, .cleanupDir], .httpError 404 "Failed to download profile picture.")
    | .ok (some f) => ([.allocTemp, .armCleanup], .fileResp f)

/-! ## Deferred cleanup (`routes/download.py` lines 40-54, `utils/zip_utils.py`) -/

/-- Flat filesystem: the set of existing paths, each a component list. -/
abbrev FsPath := List String

/-- Python `path.name`: last component. -/
def fsName (p : FsPath) : String := p.getLastD ""

/-- `cleanup_directory` (`zip_utils.py` lines 57-61): `shutil.rmtree` removes
the directory and everything under it; no-op when absent. -/
def cleanup_directory_fs (fs : List FsPath) (dir : FsPath) : List FsPath :=
  fs.filter fun p => !(dir.isPrefixOf p)

/-- A cleanup task armed by `schedule_cleanup`. -/
structure CleanupTask where
  delay : Nat
  path : FsPath
  deriving DecidableEq, Repr

/-- `schedule_cleanup` (`download.py` lines 40-54): a detached task is armed
only when `settings.AUTO_CLEANUP` is enabled; nothing is deleted when
arming. -/
def schedule_cleanup (autoCleanup : Bool) (path : FsPath) (delay : Nat) : Option CleanupTask :=
  if autoCleanup then some ⟨delay, path⟩ else none

/-- Body of the detached cleanup task (`download.py` lines 44-50): after the
delay, remove the directory, then unlink `path.parent / (path.name ++ ".zip")`
if it exists. -/
def run_cleanup_task (fs : List FsPath) (path : FsPath) : List FsPath :=
  let fs1 := cleanup_directory_fs fs path
  let zipPath := path.dropLast ++ [fsName path ++ ".zip"]
  if fs1.contains zipPath then fs1.filter fun p => !(p == zipPath) else fs1

/-- Filesystem after `/download/all/{username}` succeeds: the temporary
directory `{username}_{timestamp}` (`create_temp_download_dir`), a file
inside it, and the archive `create_zip_archive(temp_dir, username,
temp_dir.parent)` wrote at `parent / (username ++ ".zip")`. -/
def download_all_success_fs (base : FsPath) (username ts : String) : List FsPath :=
  [base ++ [username ++ "_" ++ ts],
   base ++ [username ++ "_" ++ ts, "profile_pic.jpg"],
   base ++ [username ++ ".zip"]]

/-- C5: on every failure path of the four download routes reached after the
temporary directory was allocated, the directory is deleted synchronously
before the error response and no deferred cleanup is armed. -/
theorem C5_failure_paths_clean_synchronously :
    (∀ (u : String) (svc : Except RouteFailure DlStats) (zip : Except String Unit),
      (download_all_route u svc zip).2.isError = true →
      .allocTemp ∈ (download_all_route u svc zip).1 →
      .cleanupDir ∈ (download_all_route u svc zip).1 ∧
      .armCleanup ∉ (download_all_route u svc zip).1) ∧
    (∀ (u : String) (svc : Except RouteFailure (List String)) (zip : Except String Unit),
      (download_posts_route u svc zip).2.isError = true →
      .allocTemp ∈ (download_posts_route u svc zip).1 →
      .cleanupDir ∈ (download_posts_route u svc zip).1 ∧
      .armCleanup ∉ (download_posts_route u svc zip).1) ∧
    (∀ (svc : Except RouteFailure PostR) (zip : Except String Unit),
      (download_post_route svc zip).2.isError = true →
      .allocTemp ∈ (download_post_route svc zip).1 →
      .cleanupDir ∈ (download_post_route svc zip).1 ∧
      .armCleanup ∉ (download_post_route svc zip).1) ∧
    (∀ (urlOnly : Bool) (info : Except RouteFailure Unit)
      (pic : Except RouteFailure (Option String)),
      (download_profile_pic_route urlOnly info pic).2.isError = true →
      .allocTemp ∈ (download_profile_pic_route urlOnly info pic).1 →
      .cleanupDir ∈ (download_profile_pic_route urlOnly info pic).1 ∧
      .armCleanup ∉ (download_profile_pic_route urlOnly info pic).1) := by
  refine ⟨?_, ?_, ?_, ?_⟩
  · intro u svc zip herr _
    rcases svc with f | s
    · rcases f with e | m <;>
        exact ⟨by simp [download_all_route], by simp [download_all_route]⟩
    · rcases zip with m | u2
      · exact ⟨by simp [download_all_route], by simp [download_all_route]⟩
      · simp [download_all_route, RouteResult.isError] at herr
  · intro u svc zip herr _
    rcases svc with f | posts
    · rcases f with e | m <;>
        exact ⟨by simp [download_posts_route], by simp [download_posts_route]⟩
    · by_cases hp : posts.isEmpty
      · exact ⟨by simp [download_posts_route, hp], by simp [download_posts_route, hp]⟩
      · rcases zip with m | u2
        · exact ⟨by simp [download_posts_route, hp], by simp [download_posts_route, hp]⟩
        · simp [download_posts_route, hp, RouteResult.isError] at herr
  · intro svc zip herr _
    rcases svc with f | r
    · rcases f with e | m <;>
        exact ⟨by simp [download_post_route], by simp [download_post_route]⟩
    · by_cases hm : r.mediaFiles.isEmpty
      · exact ⟨by simp [download_post_route, hm], by simp [download_post_route, hm]⟩
      · by_cases hmul : (r.isSidecar || decide (1 < r.mediacount.getD 0) ||
            decide (1 < r.mediaFiles.length)) = true
        · rcases zip with m | u2
          · exact ⟨by simp [download_post_route, hm, hmul],
              by simp [download_post_route, hm, hmul]⟩
          · simp [download_post_route, hm, hmul, RouteResult.isError] at herr
        · simp [download_post_route, hm, hmul, RouteResult.isError] at herr
  · intro urlOnly info pic herr halloc
    cases urlOnly with
    | true =>
      exfalso
      rcases info with f | u2
      · rcases f with e | m <;> simp [download_profile_pic_route] at halloc
      · simp [download_profile_pic_route, RouteResult.isError] at herr
    | false =>
      rcases pic with f | p
      · rcases f with e | m <;>
          exact ⟨by simp [download_profile_pic_route],
            by simp [download_profile_pic_route]⟩
      · rcases p with _ | f
        · exact ⟨by simp [download_profile_pic_route],
            by simp [download_profile_pic_route]⟩
        · simp [download_profile_pic_route, RouteResult.isError] at herr

/-- Witness for C5: the `/download/all` route failing with `RateLimitError`
after allocation cleans the directory synchronously and arms nothing. -/
theorem C5_failure_paths_clean_synchronously_witness :
    .cleanupDir ∈ (download_all_route "alice" (.error (.typed .rateLimited)) (.ok ())).1 ∧
    .armCleanup ∉ (download_all_route "alice" (.error (.typed .rateLimited)) (.ok ())).1 :=
  C5_failure_paths_clean_synchronously.1 "alice" (.error (.typed .rateLimited)) (.ok ())
    (by decide) (by decide)

/-- C7: with auto-cleanup enabled, after `/download/all/alice` succeeds both
the temporary directory and the archive `alice.zip` exist, and a task is
armed (none when the flag is off); but the task, which removes
`path.parent / (path.name ++ ".zip")`, looks for the timestamped name
`alice_20260101_120000_000000.zip` and therefore leaves `alice.zip` on disk
forever, contrary to the claim that both are deleted after the delay. -/
theorem C7_cleanup_task_misses_archive :
    (download_all_success_fs ["downloads"] "alice" "20260101_120000_000000").contains
      (["downloads"] ++ ["alice_20260101_120000_000000"]) = true ∧
    (download_all_success_fs ["downloads"] "alice" "20260101_120000_000000").contains
      (["downloads"] ++ ["alice.zip"]) = true ∧
    schedule_cleanup true (["downloads"] ++ ["alice_20260101_120000_000000"]) 300 =
      some ⟨300, ["downloads", "alice_20260101_120000_000000"]⟩ ∧
    schedule_cleanup false (["downloads"] ++ ["alice_20260101_120000_000000"]) 300 = none ∧
    (run_cleanup_task (download_all_success_fs ["downloads"] "alice" "20260101_120000_000000")
      (["downloads"] ++ ["alice_20260101_120000_000000"])).contains
      (["downloads"] ++ ["alice_20260101_120000_000000"]) = false ∧
    (run_cleanup_task (download_all_success_fs ["downloads"] "alice" "20260101_120000_000000")
      (["downloads"] ++ ["alice_20260101_120000_000000"])).contains
      (["downloads"] ++ ["alice.zip"]) = true := by
  refine ⟨by decide, by decide, by decide, by decide, by decide, by decide⟩

/-! ## Archive builder (`utils/zip_utils.py` lines 13-42)

The directory tree is a nested inductive; `filesOfDir` is `os.walk` combined
with `relative_to(source_dir)`: it enumerates every file under a directory's
children with its path relative to that directory.  `create_zip_archive`
stores each walked file under its relative path (`zipf.write(file_path,
arcname)`).  Extraction materialises the entries back into a tree. -/

/-- A directory tree: files carry byte contents, directories carry children. -/
inductive FTree
  | file (name : String) (content : List Nat)
  | dir (name : String) (children : List FTree)
  deriving Repr

/-- Whether a tree node is a directory with the given name. -/
def dirNamed (n : String) : FTree → Bool
  | .dir nm _ => nm == n
  | _ => false

/-- Whether some child is a directory with the given name. -/
def hasDirNamed (n : String) (ch : List FTree) : Bool := ch.any (dirNamed n)

/-- Walk a directory's children and list every file with its relative path
and contents (`os.walk` plus `relative_to`). -/
def filesOfDir : List FTree → List (List String × List Nat)
  | [] => []
  | .file n c :: rest => ([n], c) :: filesOfDir rest
  | .dir n sub :: rest =>
    (filesOfDir sub).map (fun e => (n :: e.1, e.2)) ++ filesOfDir rest

/-- `create_zip_archive`: the archive entries are exactly the files walked
under the source directory, named by their paths relative to the source. -/
def create_zip_archive (source : List FTree) : List (List String × List Nat) :=
  filesOfDir source

/-- At each level, at most one directory per name (holds for any tree built
by repeated extraction inserts, and for any real directory). -/
def uniqueDirs : List FTree → Bool
  | [] => true
  | .file _ _ :: rest => uniqueDirs rest
  | .dir n sub :: rest => !(hasDirNamed n rest) && uniqueDirs sub && uniqueDirs rest

mutual

/-- Materialise one archive entry into a tree: descend into the (unique)
directory matching the head component, creating directories as needed, and
place the file at the last component. -/
def insertFile (p : List String) (c : List Nat) (ch : List FTree) : List FTree :=
  match p with
  | [] => ch
  | [n] => ch ++ [.file n c]
  | n :: m :: rest =>
    if hasDirNamed n ch then insertMap n (m :: rest) c ch
    else ch ++ [.dir n (insertFile (m :: rest) c [])]

/-- Map of `insertFile` over the children, entering directories named `n`. -/
def insertMap (n : String) (p2 : List String) (c : List Nat) (ch : List FTree) : List FTree :=
  match ch with
  | [] => []
  | .dir nm sub :: rest =>
    (if nm == n then .dir nm (insertFile p2 c sub) else .dir nm sub) :: insertMap n p2 c rest
  | .file nm cc :: rest => .file nm cc :: insertMap n p2 c rest

end

/-- Extract an archive by materialising every entry into an empty tree. -/
def extract_zip (entries : List (List String × List Nat)) : List FTree :=
  entries.foldl (fun acc e => insertFile e.1 e.2 acc) []

/-- Writing the archive file into a flat filesystem (`zip_path = output_dir /
(zip_name ++ ".zip")` is created; nothing else is touched). -/
def write_zip_file (fs : List FsPath) (zipPath : FsPath) : List FsPath :=
  fs ++ [zipPath]

theorem filesOfDir_append (l1 l2 : List FTree) :
    filesOfDir (l1 ++ l2) = filesOfDir l1 ++ filesOfDir l2 := by
  induction l1 with
  | nil => simp [filesOfDir]
  | cons t rest ih =>
    cases t with
    | file n c => simp [filesOfDir, ih]
    | dir n sub => simp [filesOfDir, ih]

theorem hasDirNamed_append (n : String) (l1 l2 : List FTree) :
    hasDirNamed n (l1 ++ l2) = (hasDirNamed n l1 || hasDirNamed n l2) := by
  simp [hasDirNamed]

theorem insertMap_of_not_has {n : String} (p2 : List String) (c : List Nat)
    {ch : List FTree} (h : hasDirNamed n ch = false) : insertMap n p2 c ch = ch := by
  induction ch with
  | nil => simp [insertMap]
  | cons t rest ih =>
    cases t with
    | file nm cc =>
      have h2 : hasDirNamed n rest = false := by
        simpa [hasDirNamed, dirNamed] using h
      simp [insertMap, ih h2]
    | dir nm sub =>
      have h1 : (nm == n) = false := by
        by_contra hx
        simp only [Bool.not_eq_false] at hx
        simp [hasDirNamed, dirNamed, hx] at h
      have h2 : hasDirNamed n rest = false := by
        simp only [hasDirNamed, List.any_cons, Bool.or_eq_false_iff] at h
        exact h.2
      simp [insertMap, h1, ih h2]

theorem hasDirNamed_insertMap (m n : String) (p2 : List String) (c : List Nat)
    (ch : List FTree) : hasDirNamed m (insertMap n p2 c ch) = hasDirNamed m ch := by
  induction ch with
  | nil => simp [insertMap]
  | cons t rest ih =>
    simp only [hasDirNamed] at ih
    cases t with
    | file nm cc => simp [insertMap, hasDirNamed, dirNamed, ih]
    | dir nm sub =>
      by_cases he : (nm == n) = true
      · simp [insertMap, he, hasDirNamed, dirNamed, ih]
      · simp only [Bool.not_eq_true] at he
        simp [insertMap, he, hasDirNamed, dirNamed, ih]

theorem uniqueDirs_append_file (n : String) (c : List Nat) :
    ∀ ch : List FTree, uniqueDirs ch = true →
      uniqueDirs (ch ++ [FTree.file n c]) = true := by
  intro ch
  induction ch with
  | nil => intro _; simp [uniqueDirs]
  | cons t rest ih =>
    intro hu
    cases t with
    | file nm cc =>
      have h2 : uniqueDirs rest = true := by simpa [uniqueDirs] using hu
      simpa [uniqueDirs] using ih h2
    | dir nm sub =>
      simp only [uniqueDirs, Bool.and_eq_true, Bool.not_eq_true'] at hu
      simp only [List.cons_append, uniqueDirs, hasDirNamed_append, Bool.and_eq_true,
        Bool.not_eq_true', Bool.or_eq_false_iff]
      exact ⟨⟨⟨hu.1.1, by simp [hasDirNamed, dirNamed]⟩, hu.1.2⟩, ih hu.2⟩

theorem uniqueDirs_append_dir (n : String) (sub2 : List FTree)
    (hsub : uniqueDirs sub2 = true) :
    ∀ ch : List FTree, uniqueDirs ch = true → hasDirNamed n ch = false →
      uniqueDirs (ch ++ [FTree.dir n sub2]) = true := by
  intro ch
  induction ch with
  | nil => intro _ _; simp [uniqueDirs, hasDirNamed, hsub]
  | cons t rest ih =>
    intro hu hhas
    cases t with
    | file nm cc =>
      have h2 : uniqueDirs rest = true := by simpa [uniqueDirs] using hu
      have h3 : hasDirNamed n rest = false := by
        simp only [hasDirNamed, List.any_cons, dirNamed, Bool.or_eq_false_iff] at hhas
        exact hhas.2
      simpa [uniqueDirs] using ih h2 h3
    | dir nm sub =>
      simp only [uniqueDirs, Bool.and_eq_true, Bool.not_eq_true'] at hu
      have hne : (nm == n) = false := by
        by_contra hx
        simp only [Bool.not_eq_false] at hx
        simp [hasDirNamed, dirNamed, hx] at hhas
      have hrest : hasDirNamed n rest = false := by
        simp only [hasDirNamed, List.any_cons, Bool.or_eq_false_iff] at hhas
        exact hhas.2
      have hsym : (n == nm) = false :=
        beq_eq_false_iff_ne.mpr (Ne.symm (beq_eq_false_iff_ne.mp hne))
      simp only [List.cons_append, uniqueDirs, hasDirNamed_append, Bool.and_eq_true,
        Bool.not_eq_true', Bool.or_eq_false_iff]
      exact ⟨⟨⟨hu.1.1, by simp [hasDirNamed, dirNamed, hsym]⟩, hu.1.2⟩, ih hu.2 hrest⟩

theorem uniqueDirs_insertMap (n : String) (p2 : List String) (c : List Nat)
    (IH : ∀ ch2 : List FTree, uniqueDirs ch2 = true →
      uniqueDirs (insertFile p2 c ch2) = true) :
    ∀ ch : List FTree, uniqueDirs ch = true →
      uniqueDirs (insertMap n p2 c ch) = true := by
  intro ch
  induction ch with
  | nil => intro _; simp [insertMap, uniqueDirs]
  | cons t rest ih =>
    intro hu
    cases t with
    | file nm cc =>
      have h2 : uniqueDirs rest = true := by simpa [uniqueDirs] using hu
      simpa [insertMap, uniqueDirs] using ih h2
    | dir nm sub =>
      simp only [uniqueDirs, Bool.and_eq_true, Bool.not_eq_true'] at hu
      by_cases he : (nm == n) = true
      · have hnm : nm = n := eq_of_beq he
        subst hnm
        rw [insertMap, if_pos he, insertMap_of_not_has _ _ hu.1.1]
        simp only [uniqueDirs, Bool.and_eq_true, Bool.not_eq_true']
        exact ⟨⟨hu.1.1, IH sub hu.1.2⟩, hu.2⟩
      · simp only [Bool.not_eq_true] at he
        rw [insertMap, if_neg (by simp [he])]
        simp only [uniqueDirs, Bool.and_eq_true, Bool.not_eq_true',
          hasDirNamed_insertMap]
        exact ⟨⟨hu.1.1, hu.1.2⟩, ih hu.2⟩

theorem uniqueDirs_insertFile : ∀ (p : List String) (c : List Nat) (ch : List FTree),
    uniqueDirs ch = true → uniqueDirs (insertFile p c ch) = true := by
  intro p
  induction p with
  | nil => intro c ch hu; simpa [insertFile] using hu
  | cons n p2 ih =>
    intro c ch hu
    cases p2 with
    | nil =>
      rw [insertFile]
      exact uniqueDirs_append_file n c ch hu
    | cons m rest =>
      by_cases hd : hasDirNamed n ch = true
      · rw [insertFile, if_pos hd]
        exact uniqueDirs_insertMap n (m :: rest) c (fun ch2 hu2 => ih c ch2 hu2) ch hu
      · have hd2 : hasDirNamed n ch = false := by simpa using hd
        rw [insertFile, if_neg (by simp [hd2])]
        have hsub : uniqueDirs (insertFile (m :: rest) c []) = true :=
          ih c [] (by simp [uniqueDirs])
        exact uniqueDirs_append_dir n _ hsub ch hu hd2

theorem filesOfDir_insertMap (n : String) (p2 : List String) (c : List Nat)
    (IH : ∀ ch2 : List FTree, uniqueDirs ch2 = true →
      List.Perm (filesOfDir (insertFile p2 c ch2)) ((p2, c) :: filesOfDir ch2)) :
    ∀ ch : List FTree, hasDirNamed n ch = true → uniqueDirs ch = true →
      List.Perm (filesOfDir (insertMap n p2 c ch)) ((n :: p2, c) :: filesOfDir ch) := by
  intro ch
  induction ch with
  | nil => intro hh _; simp [hasDirNamed] at hh
  | cons t rest ihc =>
    intro hh hu
    cases t with
    | file nm cc =>
      have hh2 : hasDirNamed n rest = true := by
        simpa [hasDirNamed, dirNamed] using hh
      have hu2 : uniqueDirs rest = true := by simpa [uniqueDirs] using hu
      have hp := ihc hh2 hu2
      rw [insertMap]
      simp only [filesOfDir]
      exact (hp.cons _).trans (List.Perm.swap _ _ _)
    | dir nm sub =>
      simp only [uniqueDirs, Bool.and_eq_true, Bool.not_eq_true'] at hu
      by_cases he : (nm == n) = true
      · have hnm : nm = n := eq_of_beq he
        subst hnm
        rw [insertMap, if_pos he, insertMap_of_not_has _ _ hu.1.1]
        simp only [filesOfDir]
        have h1 := IH sub hu.1.2
        have h2 := h1.map (fun e => (nm :: e.1, e.2))
        have h3 := h2.append_right (filesOfDir rest)
        simpa using h3
      · have hh2 : hasDirNamed n rest = true := by
          simp only [hasDirNamed, List.any_cons, dirNamed, he, Bool.false_or] at hh
          exact hh
        have hp := ihc hh2 hu.2
        rw [insertMap, if_neg (by simp [he])]
        simp only [filesOfDir]
        exact ((List.Perm.append_left _ hp).trans List.perm_middle)

theorem filesOfDir_insertFile : ∀ (p : List String) (c : List Nat) (ch : List FTree),
    p ≠ [] → uniqueDirs ch = true →
    List.Perm (filesOfDir (insertFile p c ch)) ((p, c) :: filesOfDir ch) := by
  intro p
  induction p with
  | nil => intro c ch hne _; exact absurd rfl hne
  | cons n p2 ih =>
    intro c ch _ hu
    cases p2 with
    | nil =>
      rw [insertFile]
      rw [filesOfDir_append]
      simp only [filesOfDir]
      exact List.perm_append_singleton (([n], c)) (filesOfDir ch)
    | cons m rest =>
      have IH : ∀ ch2 : List FTree, uniqueDirs ch2 = true →
          List.Perm (filesOfDir (insertFile (m :: rest) c ch2))
            (((m :: rest), c) :: filesOfDir ch2) :=
        fun ch2 hu2 => ih c ch2 (by simp) hu2
      by_cases hd : hasDirNamed n ch = true
      · rw [insertFile, if_pos hd]
        exact filesOfDir_insertMap n (m :: rest) c IH ch hd hu
      · have hd2 : hasDirNamed n ch = false := by simpa using hd
        rw [insertFile, if_neg (by simp [hd2])]
        rw [filesOfDir_append]
        have h1 := IH [] (by simp [uniqueDirs])
        have h2 := h1.map (fun e => (n :: e.1, e.2))
        have h3 := List.Perm.append_left (filesOfDir ch) h2
        have h4 : List.Perm
            (filesOfDir ch ++ filesOfDir [FTree.dir n (insertFile (m :: rest) c [])])
            (filesOfDir ch ++ [((n :: m :: rest), c)]) := by
          simpa [filesOfDir] using h3
        exact h4.trans (List.perm_append_singleton _ _)

theorem mem_filesOfDir_ne_nil : ∀ (ch : List FTree) (e : List String × List Nat),
    e ∈ filesOfDir ch → e.1 ≠ [] := by
  intro ch
  induction ch using filesOfDir.induct with
  | case1 => intro e he; simp [filesOfDir] at he
  | case2 n c rest ih =>
    intro e he
    simp only [filesOfDir, List.mem_cons] at he
    rcases he with he | he
    · subst he; simp
    · exact ih e he
  | case3 n sub rest ih1 ih2 =>
    intro e he
    simp only [filesOfDir, List.mem_append] at he
    rcases he with he | he
    · rcases List.mem_map.mp he with ⟨q, _, hq⟩
      subst hq; simp
    · exact ih2 e he

theorem filesOfDir_foldl_insert :
    ∀ (entries : List (List String × List Nat)) (acc : List FTree),
      (∀ e ∈ entries, e.1 ≠ []) → uniqueDirs acc = true →
      List.Perm (filesOfDir (entries.foldl (fun a e => insertFile e.1 e.2 a) acc))
        (filesOfDir acc ++ entries) := by
  intro entries
  induction entries with
  | nil => intro acc _ _; simp
  | cons e es ihe =>
    intro acc h hu
    have hne : e.1 ≠ [] := h e (List.mem_cons_self _ _)
    have hu2 : uniqueDirs (insertFile e.1 e.2 acc) = true :=
      uniqueDirs_insertFile e.1 e.2 acc hu
    have hIH := ihe (insertFile e.1 e.2 acc)
      (fun x hx => h x (List.mem_cons_of_mem _ hx)) hu2
    simp only [List.foldl_cons]
    refine hIH.trans ?_
    have h1 := (filesOfDir_insertFile e.1 e.2 acc hne hu).append_right es
    refine h1.trans ?_
    exact List.perm_middle.symm

theorem extract_zip_roundtrip (entries : List (List String × List Nat))
    (h : ∀ e ∈ entries, e.1 ≠ []) :
    List.Perm (filesOfDir (extract_zip entries)) entries := by
  have h2 := filesOfDir_foldl_insert entries [] h (by simp [uniqueDirs])
  simpa [extract_zip, filesOfDir] using h2

/-- C6: the archive built from a directory tree has as entries exactly the
files under the source, named by their paths relative to the source root;
extracting the archive reproduces the same relative file set with identical
contents; and writing the archive file leaves the source subtree of the
filesystem untouched whenever the archive path is outside it (as with the
default output location, the source's parent). -/
theorem C6_archive_roundtrip :
    (∀ (source : List FTree) (e : List String × List Nat),
      e ∈ create_zip_archive source → e.1 ≠ [] ∧ e ∈ filesOfDir source) ∧
    (∀ source : List FTree,
      List.Perm (filesOfDir (extract_zip (create_zip_archive source)))
        (create_zip_archive source)) ∧
    (∀ (fs : List FsPath) (srcPath zipPath q : FsPath),
      srcPath.isPrefixOf zipPath = false → srcPath.isPrefixOf q = true →
      (q ∈ write_zip_file fs zipPath ↔ q ∈ fs)) := by
  refine ⟨?_, ?_, ?_⟩
  · intro source e he
    exact ⟨mem_filesOfDir_ne_nil source e he, he⟩
  · intro source
    exact extract_zip_roundtrip _ (mem_filesOfDir_ne_nil source)
  · intro fs srcPath zipPath q hz hq
    unfold write_zip_file
    simp only [List.mem_append, List.mem_singleton]
    constructor
    · rintro (h | rfl)
      · exact h
      · rw [hq] at hz; cases hz
    · exact fun h => Or.inl h

/-- Witness for C6 at a concrete tree (a file, and a subdirectory holding a
file) and a concrete filesystem write outside the source subtree. -/
theorem C6_archive_roundtrip_witness :
    List.Perm
      (filesOfDir (extract_zip (create_zip_archive
        [FTree.file "a.jpg" [1], FTree.dir "posts" [FTree.file "b.mp4" [2]]])))
      (create_zip_archive
        [FTree.file "a.jpg" [1], FTree.dir "posts" [FTree.file "b.mp4" [2]]]) ∧
    (["base", "alice_ts", "f.jpg"] ∈
        write_zip_file [["base", "alice_ts", "f.jpg"]] ["base", "alice.zip"] ↔
      ["base", "alice_ts", "f.jpg"] ∈ [["base", "alice_ts", "f.jpg"]]) :=
  ⟨C6_archive_roundtrip.2.1
    [FTree.file "a.jpg" [1], FTree.dir "posts" [FTree.file "b.mp4" [2]]],
   C6_archive_roundtrip.2.2 [["base", "alice_ts", "f.jpg"]]
    ["base", "alice_ts"] ["base", "alice.zip"] ["base", "alice_ts", "f.jpg"]
    (by decide) (by decide)⟩

/-! ## Retry/backoff with proxy rotation (`services/insta_service.py` lines
37, 88-140)

`_build_proxy_cycle` returns `iter(proxies * 1000)` — a finite iterator over
the pool repeated 1000 times (`None` for an empty pool); `_apply_next_proxy`
takes the next entry, silently doing nothing on `StopIteration`, and only
updates the session proxy when the entry is a non-empty string.
`_with_backoff` runs the wrapped callable up to `PROXY_RETRY_MAX` times; on
a `ConnectionException` whose text contains `429` or `Please wait a few
minutes` it raises `RateLimitError` on the last attempt and otherwise
sleeps `base ** attempt + random.uniform(0, jitter)` and rotates the proxy
when `PROXY_ROTATION` is set.  The random jitter samples are injected as a
function `j`, the callable's behaviour as a list of per-attempt outcomes. -/

/-- Rotation state of a service instance: the cycle cursor and the proxy
currently applied to the session. -/
structure SvcState where
  cursor : Nat
  active : Option String
  deriving DecidableEq, Repr

/-- Next element of `iter(proxies * 1000)` at a given cursor: entry
`pool[cursor % len]` while fewer than `1000 * len` items were consumed,
exhausted afterwards. -/
def proxy_cycle_next (pool : List String) (cursor : Nat) : Option String :=
  if h : cursor < 1000 * pool.length then
    some (pool.get ⟨cursor % pool.length, Nat.mod_lt _ (by omega)⟩)
  else none

/-- `_apply_next_proxy`: no-op for an empty pool (`_proxy_cycle is None`) or
an exhausted cycle (`StopIteration` → `pass`); otherwise consume the next
entry and apply it when it is a non-empty string (`if proxy:`). -/
def apply_next_proxy (pool : List String) (st : SvcState) : SvcState :=
  if pool.isEmpty then st
  else
    match proxy_cycle_next pool st.cursor with
    | none => st
    | some p => ⟨st.cursor + 1, if p == "" then st.active else some p⟩

/-- Outcome of one invocation of the wrapped callable. -/
inductive CallOutcome
  | success
  | connErr (message : String)
  | otherExc (message : String)
  deriving DecidableEq, Repr

/-- Throttle detection of `_with_backoff`: `"429" in msg or "Please wait a
few minutes" in msg`. -/
def is_throttle_msg (m : String) : Bool :=
  strContains m "429" || strContains m "Please wait a few minutes"

/-- Result of `_with_backoff`. -/
inductive BackoffResult
  | ok
  | rateLimited
  | downloadError (message : String)
  | reraised (message : String)
  deriving DecidableEq, Repr

/-- Trace of a `_with_backoff` run: the rotation state at each performed
call, the sleep durations between consecutive attempts, and the result. -/
structure BackoffTrace where
  callStates : List SvcState
  sleeps : List ℚ
  result : BackoffResult
  deriving DecidableEq, Repr

/-- Loop body of `_with_backoff` from attempt number `a` on, consuming one
injected outcome per attempt; an empty remainder of outcomes corresponds to
`attempt == attempts` having been reached in the previous iteration (the
final `raise DownloadError` after the loop is only reachable with zero
attempts). -/
def with_backoff_go (rotation : Bool) (pool : List String) (base : ℚ)
    (j : Nat → ℚ) (a : Nat) (st : SvcState) : List CallOutcome → BackoffTrace
  | [] => ⟨[], [], .downloadError "Unable to complete request after retries"⟩
  | o :: rest =>
    match o with
    | .success => ⟨[st], [], .ok⟩
    | .otherExc m => ⟨[st], [], .reraised m⟩
    | .connErr m =>
      if is_throttle_msg m then
        if rest.isEmpty then ⟨[st], [], .rateLimited⟩
        else
          let st2 := if rotation then apply_next_proxy pool st else st
          let r := with_backoff_go rotation pool base j (a + 1) st2 rest
          ⟨st :: r.callStates, (base ^ a + j a) :: r.sleeps, r.result⟩
      else
        if rest.isEmpty then ⟨[st], [], .downloadError ("Connection error: " ++ m)⟩
        else
          let st2 := if rotation then apply_next_proxy pool st else st
          let r := with_backoff_go rotation pool base j (a + 1) st2 rest
          ⟨st :: r.callStates, (base ^ a + j a) :: r.sleeps, r.result⟩

/-- `InstaService._with_backoff`, starting at attempt 1; the length of
`outs` is the configured `PROXY_RETRY_MAX`. -/
def with_backoff (rotation : Bool) (pool : List String) (base : ℚ)
    (j : Nat → ℚ) (st : SvcState) (outs : List CallOutcome) : BackoffTrace :=
  with_backoff_go rotation pool base j 1 st outs

theorem with_backoff_go_head (rotation : Bool) (pool : List String) (base : ℚ)
    (j : Nat → ℚ) (a : Nat) (st : SvcState) (outs : List CallOutcome)
    (h : outs ≠ []) :
    (with_backoff_go rotation pool base j a st outs).callStates.head? = some st := by
  cases outs with
  | nil => exact absurd rfl h
  | cons o rest =>
    cases o with
    | success => simp [with_backoff_go]
    | otherExc m => simp [with_backoff_go]
    | connErr m =>
      simp only [with_backoff_go]
      split_ifs <;> simp

theorem with_backoff_go_throttle (rotation : Bool) (pool : List String) (base : ℚ)
    (j : Nat → ℚ) :
    ∀ (outs : List CallOutcome) (a : Nat) (st : SvcState), outs ≠ [] →
      (∀ o ∈ outs, ∃ m, o = CallOutcome.connErr m ∧ is_throttle_msg m = true) →
      (with_backoff_go rotation pool base j a st outs).callStates.length = outs.length ∧
      (with_backoff_go rotation pool base j a st outs).result = .rateLimited ∧
      (with_backoff_go rotation pool base j a st outs).sleeps =
        (List.range (outs.length - 1)).map (fun k => base ^ (a + k) + j (a + k)) := by
  intro outs
  induction outs with
  | nil => intro a st h _; exact absurd rfl h
  | cons o rest ih =>
    intro a st _ hth
    obtain ⟨m, rfl, hm⟩ := hth o (List.mem_cons_self _ _)
    cases rest with
    | nil => simp [with_backoff_go, hm]
    | cons o2 rs =>
      have hrest : (o2 :: rs : List CallOutcome) ≠ [] := by simp
      have hth2 : ∀ x ∈ o2 :: rs, ∃ m2, x = CallOutcome.connErr m2 ∧ is_throttle_msg m2 = true :=
        fun x hx => hth x (List.mem_cons_of_mem _ hx)
      obtain ⟨ih1, ih2, ih3⟩ :=
        ih (a + 1) (if rotation then apply_next_proxy pool st else st) hrest hth2
      refine ⟨?_, ?_, ?_⟩
      · have hgo1 : (with_backoff_go rotation pool base j a st
            (CallOutcome.connErr m :: o2 :: rs)).callStates
            = st :: (with_backoff_go rotation pool base j (a + 1)
                (if rotation then apply_next_proxy pool st else st) (o2 :: rs)).callStates := by
          simp [with_backoff_go, hm]
        rw [hgo1, List.length_cons, ih1]
        simp
      · have hgo2 : (with_backoff_go rotation pool base j a st
            (CallOutcome.connErr m :: o2 :: rs)).result
            = (with_backoff_go rotation pool base j (a + 1)
                (if rotation then apply_next_proxy pool st else st) (o2 :: rs)).result := by
          simp [with_backoff_go, hm]
        rw [hgo2, ih2]
      · have hgo3 : (with_backoff_go rotation pool base j a st
            (CallOutcome.connErr m :: o2 :: rs)).sleeps
            = (base ^ a + j a) ::
              (with_backoff_go rotation pool base j (a + 1)
                (if rotation then apply_next_proxy pool st else st) (o2 :: rs)).sleeps := by
          simp [with_backoff_go, hm]
        rw [hgo3, ih3]
        have hr : ((CallOutcome.connErr m :: o2 :: rs : List CallOutcome)).length - 1 =
            rs.length + 1 := by simp
        rw [hr]
        have hl : (o2 :: rs : List CallOutcome).length - 1 = rs.length := by simp
        rw [hl]
        rw [List.range_succ_eq_map, List.map_cons, List.map_map]
        have hfun : ((fun k => base ^ (a + k) + j (a + k)) ∘ Nat.succ)
            = fun k => base ^ (a + 1 + k) + j (a + 1 + k) := by
          funext k
          simp only [Function.comp_apply, Nat.succ_eq_add_one]
          have e : a + (k + 1) = a + 1 + k := by omega
          rw [e]
        rw [hfun]
        simp

theorem with_backoff_go_states_chain (pool : List String) (base : ℚ) (j : Nat → ℚ)
    (hpool : pool ≠ []) (hpne : ∀ p ∈ pool, p ≠ "") :
    ∀ (outs : List CallOutcome) (a : Nat) (st : SvcState), outs ≠ [] →
      (∀ o ∈ outs, ∃ m, o = CallOutcome.connErr m ∧ is_throttle_msg m = true) →
      st.cursor + (outs.length - 1) ≤ 1000 * pool.length →
      List.Chain' (fun s1 s2 => s2.cursor = s1.cursor + 1 ∧
        s2.active = some (pool.getD (s1.cursor % pool.length) ""))
        (with_backoff_go true pool base j a st outs).callStates := by
  intro outs
  induction outs with
  | nil => intro a st h _ _; exact absurd rfl h
  | cons o rest ih =>
    intro a st _ hth hexh
    obtain ⟨m, rfl, hm⟩ := hth o (List.mem_cons_self _ _)
    cases rest with
    | nil => simp [with_backoff_go, hm]
    | cons o2 rs =>
      have hn : 0 < pool.length := List.length_pos.mpr hpool
      have hcur : st.cursor < 1000 * pool.length := by
        simp only [List.length_cons] at hexh; omega
      have hilt : st.cursor % pool.length < pool.length := Nat.mod_lt _ hn
      have hpcn : proxy_cycle_next pool st.cursor =
          some (pool.get ⟨st.cursor % pool.length, hilt⟩) := by
        simp [proxy_cycle_next, hcur]
      have hmem : pool.get ⟨st.cursor % pool.length, hilt⟩ ∈ pool :=
        List.get_mem pool _ hilt
      have hne3 : pool.get ⟨st.cursor % pool.length, hilt⟩ ≠ "" := hpne _ hmem
      have hpe : pool.isEmpty = false := by
        cases pool with
        | nil => exact absurd rfl hpool
        | cons p ps => rfl
      have hst2 : apply_next_proxy pool st =
          ⟨st.cursor + 1, some (pool.get ⟨st.cursor % pool.length, hilt⟩)⟩ := by
        simp only [List.get_eq_getElem] at hne3 hpcn ⊢
        simp [apply_next_proxy, hpe, hpcn, hne3]
      have hgetD : pool.getD (st.cursor % pool.length) "" =
          pool.get ⟨st.cursor % pool.length, hilt⟩ := by
        rw [List.getD_eq_getElem pool _ hilt]
        simp [List.get_eq_getElem]
      have hrest : (o2 :: rs : List CallOutcome) ≠ [] := by simp
      have hth2 : ∀ x ∈ o2 :: rs, ∃ m2, x = CallOutcome.connErr m2 ∧ is_throttle_msg m2 = true :=
        fun x hx => hth x (List.mem_cons_of_mem _ hx)
      have hexh2 : (apply_next_proxy pool st).cursor +
          ((o2 :: rs : List CallOutcome).length - 1) ≤ 1000 * pool.length := by
        rw [hst2]
        simp only [List.length_cons] at hexh ⊢
        omega
      have hchain := ih (a + 1) (apply_next_proxy pool st) hrest hth2 hexh2
      have hhead := with_backoff_go_head true pool base j (a + 1)
        (apply_next_proxy pool st) _ hrest
      have hgo : (with_backoff_go true pool base j a st
          (CallOutcome.connErr m :: o2 :: rs)).callStates
          = st :: (with_backoff_go true pool base j (a + 1)
              (apply_next_proxy pool st) (o2 :: rs)).callStates := by
        simp [with_backoff_go, hm]
      rw [hgo, List.chain'_cons']
      refine ⟨?_, hchain⟩
      intro y hy
      rw [hhead] at hy
      have hy2 : y = apply_next_proxy pool st :=
        (by simpa using hy : apply_next_proxy pool st = y).symm
      subst hy2
      rw [hst2, hgetD]
      exact ⟨rfl, rfl⟩

theorem backoff_sleeps_strict_mono (base jitter : ℚ) (j : Nat → ℚ) (hbase : 1 < base)
    (hj0 : ∀ i, 0 ≤ j i) (hjb : ∀ i, j i ≤ jitter)
    (hjit : jitter < base * (base - 1)) (n : Nat) :
    List.Chain' (· < ·) ((List.range n).map (fun k => base ^ (1 + k) + j (1 + k))) := by
  rw [List.chain'_map]
  cases n with
  | zero => simp
  | succ n2 =>
    rw [List.chain'_range_succ]
    intro k _
    have hb1 : (1 : ℚ) ≤ base := le_of_lt hbase
    have hx : base ≤ base ^ (k + 1) := le_self_pow₀ hb1 (by omega)
    have hpos : (0 : ℚ) < base - 1 := by linarith
    have h1 : base * (base - 1) ≤ base ^ (k + 1) * (base - 1) :=
      mul_le_mul_of_nonneg_right hx (le_of_lt hpos)
    have hps : base ^ (k + 2) = base ^ (k + 1) * base := pow_succ base (k + 1)
    have e1 : 1 + k = k + 1 := by omega
    have e2 : 1 + (k + 1) = k + 2 := by omega
    rw [e1, e2, hps]
    have hj1 := hjb (k + 1)
    have hj2 := hj0 (k + 2)
    have hring : base ^ (k + 1) * base - base ^ (k + 1) = base ^ (k + 1) * (base - 1) := by
      ring
    linarith [h1, hjit, hj1, hj2, hring]

/-- C3 (amended): when every attempt of a `_with_backoff` run raises a
throttle-recognised connection error, exactly `PROXY_RETRY_MAX` attempts
(the length of the injected outcome list) are performed, `RateLimitError`
is raised after the final attempt with no further sleep, and the sleep
durations between consecutive attempts are strictly increasing
(`base ** attempt` plus jitter — guaranteed whenever `1 < base` and
`jitter < base * (base - 1)`, as with the default base `1.5` and jitter
`0.5`); with rotation enabled, a non-empty pool of non-empty proxy URLs,
and the finite `proxies * 1000` iterator not yet exhausted, the cursor
advances by one between every two consecutive attempts and the next pool
entry becomes the active proxy. -/
theorem C3_throttle_backoff_amended
    (pool : List String) (base jitter : ℚ) (j : Nat → ℚ)
    (outs : List CallOutcome) (st0 : SvcState)
    (hne : outs ≠ [])
    (hth : ∀ o ∈ outs, ∃ m, o = CallOutcome.connErr m ∧ is_throttle_msg m = true)
    (hbase : 1 < base) (hj0 : ∀ i, 0 ≤ j i) (hjb : ∀ i, j i ≤ jitter)
    (hjit : jitter < base * (base - 1))
    (hpool : pool ≠ []) (hpne : ∀ p ∈ pool, p ≠ "")
    (hexh : st0.cursor + (outs.length - 1) ≤ 1000 * pool.length) :
    (with_backoff true pool base j st0 outs).callStates.length = outs.length ∧
    (with_backoff true pool base j st0 outs).result = .rateLimited ∧
    (with_backoff true pool base j st0 outs).sleeps.length = outs.length - 1 ∧
    List.Chain' (· < ·) (with_backoff true pool base j st0 outs).sleeps ∧
    List.Chain' (fun s1 s2 => s2.cursor = s1.cursor + 1 ∧
      s2.active = some (pool.getD (s1.cursor % pool.length) ""))
      (with_backoff true pool base j st0 outs).callStates := by
  obtain ⟨h1, h2, h3⟩ := with_backoff_go_throttle true pool base j outs 1 st0 hne hth
  have hw : with_backoff true pool base j st0 outs =
      with_backoff_go true pool base j 1 st0 outs := rfl
  refine ⟨?_, ?_, ?_, ?_, ?_⟩
  · rw [hw, h1]
  · rw [hw, h2]
  · rw [hw, h3]
    simp
  · rw [hw, h3]
    exact backoff_sleeps_strict_mono base jitter j hbase hj0 hjb hjit (outs.length - 1)
  · rw [hw]
    exact with_backoff_go_states_chain pool base j hpool hpne outs 1 st0 hne hth hexh

theorem q_one_lt_two : (1 : ℚ) < 2 := one_lt_two

theorem q_zero_lt_two_mul : (0 : ℚ) < 2 * (2 - 1) := by norm_num

/-- Witness for C3: `PROXY_RETRY_MAX = 4` throttled attempts, base `2`,
zero jitter samples, rotation on, a two-proxy pool and a fresh cursor. -/
theorem C3_throttle_backoff_amended_witness :
    (with_backoff true ["proxyA", "proxyB"] 2 (fun _ => (0 : ℚ)) ⟨0, none⟩
      (List.replicate 4 (CallOutcome.connErr "429"))).result = BackoffResult.rateLimited ∧
    (with_backoff true ["proxyA", "proxyB"] 2 (fun _ => (0 : ℚ)) ⟨0, none⟩
      (List.replicate 4 (CallOutcome.connErr "429"))).callStates.length = 4 ∧
    List.Chain' (· < ·)
      (with_backoff true ["proxyA", "proxyB"] 2 (fun _ => (0 : ℚ)) ⟨0, none⟩
        (List.replicate 4 (CallOutcome.connErr "429"))).sleeps := by
  have h := C3_throttle_backoff_amended ["proxyA", "proxyB"] 2 0
    (fun _ => (0 : ℚ)) (List.replicate 4 (CallOutcome.connErr "429")) ⟨0, none⟩
    (by decide)
    (fun o ho => ⟨"429", List.eq_of_mem_replicate ho, by decide⟩)
    q_one_lt_two (fun i => le_refl 0) (fun i => le_refl 0) q_zero_lt_two_mul
    (by decide) (by decide) (by decide)
  exact ⟨h.2.1, h.1.trans (by decide), h.2.2.2.1⟩

/-- C3 counterexample to the rotation conjunct as the claim states it: the
`proxies * 1000` iterator is finite, so on a service instance whose cursor
has consumed it, rotation is enabled and the pool non-empty, yet all four
throttled attempts run with the same cursor and active proxy — the proxy
does not advance between any two consecutive attempts. -/
theorem C3_rotation_stalls_when_cycle_exhausted :
    (with_backoff true ["p1"] 2 (fun _ => 0) ⟨1000, some "p1"⟩
      (List.replicate 4 (CallOutcome.connErr "429"))).result = BackoffResult.rateLimited ∧
    (with_backoff true ["p1"] 2 (fun _ => 0) ⟨1000, some "p1"⟩
      (List.replicate 4 (CallOutcome.connErr "429"))).callStates =
      [⟨1000, some "p1"⟩, ⟨1000, some "p1"⟩, ⟨1000, some "p1"⟩, ⟨1000, some "p1"⟩] ∧
    ¬ List.Chain' (fun s1 s2 => s2.cursor = s1.cursor + 1)
      (with_backoff true ["p1"] 2 (fun _ => 0) ⟨1000, some "p1"⟩
        (List.replicate 4 (CallOutcome.connErr "429"))).callStates := by
  have hcs : (with_backoff true ["p1"] 2 (fun _ => 0) ⟨1000, some "p1"⟩
      (List.replicate 4 (CallOutcome.connErr "429"))).callStates =
      [⟨1000, some "p1"⟩, ⟨1000, some "p1"⟩, ⟨1000, some "p1"⟩, ⟨1000, some "p1"⟩] := by
    decide
  refine ⟨by decide, hcs, ?_⟩
  intro hch
  rw [hcs] at hch
  simp [List.chain'_cons] at hch
